import Mathlib

/-!
# PixelHeart Mood Garden — verification of the sync and streak core

Shallow embedding of the repository's core logic:

* `calculateStreak` (src/App.tsx, lines 28–84),
* the Synchronizer (`saveMemory`, `getMemories`, `deleteMemory`,
  `syncLocalToCloud`, `exportMemoriesToCSV` in src/services/db.ts),
* the remote-store wrappers (`saveMemoryToCloud`, `getMemoriesFromCloud`
  in src/services/supabase.ts).

Conventions of the embedding:

* Entry `id`s are decimal strings of epoch-millisecond timestamps; the
  JavaScript `Number(id)` conversion is modelled by `toNum`, the decimal
  value of a digit string (the only inputs the program produces).
* JavaScript day truncation (`d.setHours(0,0,0,0)` in the local time zone)
  is modelled by the day index `dayIndex off ts = (ts + off) / oneDay`,
  where `off` is the fixed local-time-zone shift in milliseconds.  Two
  timestamps have equal truncated dates iff they have equal day indices,
  and the difference of two truncated dates is `oneDay` times the
  difference of the day indices, so the comparisons in the source
  translate exactly.  "Today" is passed in as its day index.
* The IndexedDB object store is a list of `Memory` upserted by `id`
  (`dbPut`); the Supabase table is a list of `CloudMemory`.  Fallible
  remote calls are parametrised by their outcome (`QueryResult`,
  `PushOutcome`).
-/

namespace MoodGarden

/-- `Memory` record from src/types.ts. -/
structure Memory where
  id : String
  date : String
  mood : String
  imageUrl : String
  summary : String
deriving DecidableEq

/-- `CloudMemory` row shape from src/services/supabase.ts (the optional
`created_at` column is ignored by all app logic and omitted). -/
structure CloudMemory where
  id : String
  date : String
  mood : String
  image_url : String
  summary : String
deriving DecidableEq

/-- JavaScript `Number(s)` for the decimal digit strings the app stores in
`id` (decimal fold over the characters). -/
def toNum (s : String) : Nat :=
  s.data.foldl (fun n c => n * 10 + (c.toNat - 48)) 0

/-- `24 * 60 * 60 * 1000` milliseconds, the `oneDay` constant of
src/App.tsx line 46. -/
def oneDay : Nat := 24 * 60 * 60 * 1000

/-- Calendar-day index of an epoch-millisecond timestamp under a fixed
local-time-zone shift `off`: the day-truncated dates of `a` and `b` are
equal iff `dayIndex off a = dayIndex off b`, and differ by exactly one day
iff the indices differ by one. -/
def dayIndex (off ts : Nat) : Nat := (ts + off) / oneDay

/-- Day index of a memory's `id` timestamp (`Number(m.id)` day-truncated,
src/App.tsx lines 49–51 and 63–70). -/
def memDay (off : Nat) (m : Memory) : Nat := dayIndex off (toNum m.id)

/-- The `for` loop of `calculateStreak` (src/App.tsx lines 62–81): walk the
remaining entries, comparing each entry's truncated day with the previous
entry's; a one-day step increments the streak, a zero-day step is skipped,
anything else (gap or out-of-order) stops the walk. -/
def streakLoop (off : Nat) : Memory → List Memory → Nat → Nat
  | _, [], streak => streak
  | prev, curr :: rest, streak =>
    if memDay off prev = memDay off curr + 1 then
      streakLoop off curr rest (streak + 1)
    else if memDay off prev = memDay off curr then
      streakLoop off curr rest streak
    else
      streak

/-- `calculateStreak` (src/App.tsx lines 28–84).  `today` is the day index
of the current date.  The source sets `currentStreak = 1` when the newest
entry's day equals today or yesterday and returns 0 otherwise, then runs
the walk loop. -/
def calculateStreak (off today : Nat) (memories : List Memory) : Nat :=
  match memories with
  | [] => 0
  | m :: rest =>
    if memDay off m = today ∨ memDay off m + 1 = today then
      streakLoop off m rest 1
    else 0

/-! ## Day-level view of the streak walk -/

/-- The days of a list of memories, in list order. -/
def daysOf (off : Nat) (ms : List Memory) : List Nat := ms.map (memDay off)

/-- Day-level version of `streakLoop`: only the previous day index is
consulted at each step. -/
def walkDays (prev : Nat) : List Nat → Nat → Nat
  | [], streak => streak
  | d :: rest, streak =>
    if prev = d + 1 then walkDays d rest (streak + 1)
    else if prev = d then walkDays d rest streak
    else streak

/-- Day-level version of `calculateStreak`. -/
def streakDays (today : Nat) : List Nat → Nat
  | [] => 0
  | d :: rest =>
    if d = today ∨ d + 1 = today then walkDays d rest 1 else 0

theorem streakLoop_eq_walkDays (off : Nat) (prev : Memory) (l : List Memory)
    (s : Nat) : streakLoop off prev l s = walkDays (memDay off prev) (daysOf off l) s := by
  induction l generalizing prev s with
  | nil => rfl
  | cons curr rest ih =>
    simp only [streakLoop, daysOf, List.map_cons, walkDays]
    split
    · exact ih curr (s + 1)
    · split
      · exact ih curr s
      · rfl

theorem calculateStreak_eq_streakDays (off today : Nat) (ms : List Memory) :
    calculateStreak off today ms = streakDays today (daysOf off ms) := by
  cases ms with
  | nil => rfl
  | cons m rest =>
    simp only [calculateStreak, daysOf, List.map_cons, streakDays]
    split
    · exact streakLoop_eq_walkDays off m rest 1
    · rfl

/-! ## Runs of consecutive days -/

/-- `dayRun d ds` holds when, starting from day `d`, each successive day in
`ds` is either the same day or exactly one day earlier (a consecutive run
allowing same-day repeats). -/
def dayRun (d : Nat) : List Nat → Bool
  | [] => true
  | e :: rest => (decide (e = d) || decide (e + 1 = d)) && dayRun e rest

/-- `strictRun d ds`: each successive day is exactly one day earlier. -/
def strictRun (d : Nat) : List Nat → Bool
  | [] => true
  | e :: rest => decide (e + 1 = d) && strictRun e rest

/-- Last day of a run, with starting day `d` as default. -/
def lastD (d : Nat) : List Nat → Nat
  | [] => d
  | e :: rest => lastD e rest

theorem lastD_le_of_dayRun (d : Nat) (ds : List Nat) (h : dayRun d ds = true) :
    lastD d ds ≤ d := by
  induction ds generalizing d with
  | nil => exact Nat.le_refl d
  | cons e rest ih =>
    simp only [dayRun, Bool.and_eq_true, Bool.or_eq_true, decide_eq_true_eq] at h
    have he : e ≤ d := by omega
    exact Nat.le_trans (ih e h.2) he

theorem walkDays_cons (prev d : Nat) (rest : List Nat) (s : Nat) :
    walkDays prev (d :: rest) s =
      if prev = d + 1 then walkDays d rest (s + 1)
      else if prev = d then walkDays d rest s
      else s := rfl

theorem walkDays_strictRun (ds : List Nat) (d s : Nat) (h : strictRun d ds = true) :
    walkDays d ds s = s + ds.length := by
  induction ds generalizing d s with
  | nil => rfl
  | cons e rest ih =>
    simp only [strictRun, Bool.and_eq_true, decide_eq_true_eq] at h
    obtain ⟨h1, h2⟩ := h
    subst h1
    simp only [walkDays, List.length_cons]
    rw [if_pos trivial, ih e (s + 1) h2]
    omega

/-- A consecutive run followed by a gap of at least two days: the walk
accumulates one increment per day of the run and stops at the gap. -/
theorem walkDays_run_gap (ds : List Nat) (d s e : Nat) (tail : List Nat)
    (hrun : dayRun d ds = true) (hgap : e + 2 ≤ lastD d ds) :
    walkDays d (ds ++ e :: tail) s = s + (d - lastD d ds) := by
  induction ds generalizing d s with
  | nil =>
    simp only [lastD] at hgap ⊢
    simp only [List.nil_append, walkDays]
    rw [if_neg (by omega), if_neg (by omega)]
    omega
  | cons a rest ih =>
    simp only [dayRun, Bool.and_eq_true, Bool.or_eq_true, decide_eq_true_eq] at hrun
    obtain ⟨hstep, hrest⟩ := hrun
    have hlast : lastD d (a :: rest) = lastD a rest := rfl
    rw [hlast] at hgap ⊢
    have hle : lastD a rest ≤ a := lastD_le_of_dayRun a rest hrest
    rcases hstep with hsame | hstep
    · subst hsame
      rw [List.cons_append, walkDays_cons, if_neg (by omega), if_pos rfl]
      exact ih a s hrest hgap
    · subst hstep
      simp only [List.cons_append, walkDays, List.append_eq]
      rw [if_pos trivial, ih a (s + 1) hrest hgap]
      omega

/-! ## Local store, remote store, and the Synchronizer (src/services/db.ts,
src/services/supabase.ts) -/

/-- IndexedDB `db.put('memories', memory)`: idempotent upsert keyed by
`id` (the store's `keyPath`).  The store is modelled as the list of its
records. -/
def dbPut (store : List Memory) (memory : Memory) : List Memory :=
  if store.any (fun m => m.id == memory.id) then
    store.map (fun m => if m.id == memory.id then memory else m)
  else store ++ [memory]

/-- `saveMemory` (src/services/db.ts lines 98–105): write to the local
store first; the subsequent `saveMemoryToCloud` call is fire-and-forget
and does not affect the local store, whose new contents this returns. -/
def saveMemory (store : List Memory) (memory : Memory) : List Memory :=
  dbPut store memory

/-- Outcome of the remote `select` behind `getMemoriesFromCloud`: either
rows come back, or the call errors/throws. -/
inductive QueryResult where
  | ok : List CloudMemory → QueryResult
  | err : QueryResult
deriving DecidableEq

/-- `getMemoriesFromCloud` (src/services/supabase.ts lines 59–82):
returns `[]` when the client is unconfigured (no anon key) and on any
error, otherwise the rows of the `memories` table. -/
def getMemoriesFromCloud (configured : Bool) (q : QueryResult) :
    List CloudMemory :=
  if !configured then []
  else
    match q with
    | .ok data => data
    | .err => []

/-- The field translation applied to each cloud row in `getMemories`
(src/services/db.ts lines 112–119): `image_url` becomes `imageUrl`. -/
def mapCloudMemory (m : CloudMemory) : Memory :=
  { id := m.id, date := m.date, mood := m.mood, imageUrl := m.image_url,
    summary := m.summary }

/-- The descending numeric comparison used by the local fallback sort in
`getMemories` (src/services/db.ts line 128): `Number(b.id) - Number(a.id)`. -/
def idDescBool (a b : Memory) : Bool := decide (toNum b.id ≤ toNum a.id)

/-- `getMemories` (src/services/db.ts lines 107–129): cloud first — a
non-empty cloud result is translated and returned as-is (full replace);
otherwise all local entries sorted by numeric `id` descending. -/
def getMemories (configured : Bool) (q : QueryResult)
    (store : List Memory) : List Memory :=
  let cloudMemories := getMemoriesFromCloud configured q
  if cloudMemories.length > 0 then cloudMemories.map mapCloudMemory
  else store.mergeSort idDescBool

/-- Combined persistent state: the per-device IndexedDB store and the
shared Supabase table. -/
structure AppDB where
  localStore : List Memory
  remoteStore : List CloudMemory
deriving DecidableEq

/-- `deleteMemory` (src/services/db.ts lines 131–134): deletes by key from
the local IndexedDB store only; no remote call is made. -/
def deleteMemory (db : AppDB) (i : String) : AppDB :=
  { db with localStore := db.localStore.filter (fun m => m.id != i) }

/-- Outcome of the remote `upsert` inside `saveMemoryToCloud`. -/
inductive UpsertResult where
  | ok : UpsertResult
  | dbError : UpsertResult
  | thrown : UpsertResult
deriving DecidableEq

/-- `saveMemoryToCloud` (src/services/supabase.ts lines 23–57): false when
unconfigured, false on a returned error, false on a thrown error (the
`catch` arm), true on success — it never raises. -/
def saveMemoryToCloud (configured : Bool) (r : UpsertResult) : Bool :=
  if !configured then false
  else
    match r with
    | .ok => true
    | .dbError => false
    | .thrown => false

/-- Per-entry outcome of the `await saveMemoryToCloud(memory)` call inside
the `syncLocalToCloud` loop: the promise resolves `true`, resolves
`false`, or rejects (is thrown). -/
inductive PushOutcome where
  | ok : PushOutcome
  | fail : PushOutcome
  | exn : PushOutcome
deriving DecidableEq

/-- The loop of `syncLocalToCloud` (src/services/db.ts lines 144–156):
`outcome i` is the result of the push for the `i`-th entry; a resolved
`true` increments `synced`, a resolved `false` increments `failed`, and a
rejection is caught and increments `failed`. -/
def syncGo (outcome : Nat → PushOutcome) :
    Nat → List Memory → Nat → Nat → Nat × Nat
  | _, [], synced, failed => (synced, failed)
  | i, _ :: rest, synced, failed =>
    match outcome i with
    | .ok => syncGo outcome (i + 1) rest (synced + 1) failed
    | .fail => syncGo outcome (i + 1) rest synced (failed + 1)
    | .exn => syncGo outcome (i + 1) rest synced (failed + 1)

/-- `syncLocalToCloud` (src/services/db.ts lines 137–160): push every
local entry, counting successes and failures, and return the counts. -/
def syncLocalToCloud (outcome : Nat → PushOutcome) (store : List Memory) :
    Nat × Nat :=
  syncGo outcome 0 store 0 0

/-! ## CSV export (src/services/db.ts lines 162–183) -/

/-- `.replace(/"/g, str2)` specialised to doubling quotes, on the character
list. -/
def escapeQuotesList : List Char → List Char
  | [] => []
  | c :: rest =>
    if c = '"' then '"' :: '"' :: escapeQuotesList rest
    else c :: escapeQuotesList rest

/-- The `.replace(/"/g, doubled)` escaping applied to the mood and summary
fields. -/
def escapeQuotes (s : String) : String := ⟨escapeQuotesList s.data⟩

/-- JavaScript `s.substring(0, n)` (first `n` characters). -/
def strTake (s : String) (n : Nat) : String := ⟨s.data.take n⟩

/-- State machine checking that every `"` in the list is immediately
doubled (the well-formedness a CSV consumer expects of a quoted field's
interior); the flag records whether the previous character was a
still-unpaired quote. -/
def wellEscapedAux : Bool → List Char → Bool
  | q, [] => !q
  | q, c :: rest =>
    if q then decide (c = '"') && wellEscapedAux false rest
    else wellEscapedAux (decide (c = '"')) rest

/-- Every `"` in the list is immediately doubled. -/
def wellEscaped (l : List Char) : Bool := wellEscapedAux false l

/-- The date column of a CSV row: quoted verbatim, no escaping
(src/services/db.ts line 170). -/
def csvDateField (m : Memory) : String := "\"" ++ m.date ++ "\""

/-- The mood column: quoted with internal quotes doubled (line 171). -/
def csvMoodField (m : Memory) : String := "\"" ++ escapeQuotes m.mood ++ "\""

/-- The summary column: quoted with internal quotes doubled (line 172). -/
def csvSummaryField (m : Memory) : String :=
  "\"" ++ escapeQuotes m.summary ++ "\""

/-- The image column: the first 100 characters of `imageUrl` followed by
`...`, quoted, no escaping (line 176). -/
def csvImageField (m : Memory) : String :=
  "\"" ++ strTake m.imageUrl 100 ++ "..." ++ "\""

/-- One CSV data row: the four fields joined by commas (line 177). -/
def csvRow (m : Memory) : String :=
  String.intercalate "," [csvDateField m, csvMoodField m, csvSummaryField m,
    csvImageField m]

/-- The header row `Date,Mood,Summary,Image URL` (lines 166–168). -/
def csvHeader : String :=
  String.intercalate "," ["Date", "Mood", "Summary", "Image URL"]

/-- `exportMemoriesToCSV` (src/services/db.ts lines 162–183), applied to
the entry list returned by `getMemories`: `null` on an empty list, else
header plus one row per entry joined by newlines. -/
def exportMemoriesToCSV (memories : List Memory) : Option String :=
  if memories.length = 0 then none
  else some (String.intercalate "\n" (csvHeader :: memories.map csvRow))

/-! ## Supporting lemmas -/

theorem memDay_mono (off : Nat) {a b : Memory} (h : toNum a.id ≤ toNum b.id) :
    memDay off a ≤ memDay off b :=
  Nat.div_le_div_right (Nat.add_le_add_right h off)

theorem lastD_append_singleton (ds : List Nat) (d e : Nat) :
    lastD d (ds ++ [e]) = e := by
  induction ds generalizing d with
  | nil => rfl
  | cons a rest ih => exact ih a

theorem streakDays_cons (today d : Nat) (rest : List Nat) :
    streakDays today (d :: rest) =
      if d = today ∨ d + 1 = today then walkDays d rest 1 else 0 := rfl

/-- Inserting a day equal to the last day of the prefix run does not change
the walk: the extra element is consumed by the `dayDiff == 0` branch. -/
theorem walkDays_insert_dup_left (as : List Nat) (d s v : Nat)
    (bs : List Nat) (h : lastD d as = v) :
    walkDays d (as ++ v :: bs) s = walkDays d (as ++ bs) s := by
  induction as generalizing d s with
  | nil =>
    simp only [lastD] at h
    subst h
    simp only [List.nil_append]
    rw [walkDays_cons, if_neg (by omega), if_pos rfl]
  | cons a rest ih =>
    have h' : lastD a rest = v := h
    simp only [List.cons_append]
    rw [walkDays_cons, walkDays_cons]
    by_cases h1 : d = a + 1
    · rw [if_pos h1, if_pos h1]
      exact ih a (s + 1) h'
    · rw [if_neg h1, if_neg h1]
      by_cases h2 : d = a
      · rw [if_pos h2, if_pos h2]
        exact ih a s h'
      · rw [if_neg h2, if_neg h2]

/-- Inserting a day equal to the day that follows it does not change the
walk. -/
theorem walkDays_insert_dup_right (as : List Nat) (d s v : Nat)
    (bs : List Nat) :
    walkDays d (as ++ v :: v :: bs) s = walkDays d (as ++ v :: bs) s := by
  induction as generalizing d s with
  | nil =>
    simp only [List.nil_append]
    by_cases h1 : d = v + 1
    · simp only [walkDays_cons, if_pos h1, if_neg (by omega : ¬v = v + 1),
        if_pos rfl, if_true]
    · by_cases h2 : d = v
      · simp only [walkDays_cons, if_neg h1, if_pos h2,
          if_neg (by omega : ¬v = v + 1), if_pos rfl, if_true]
      · simp only [walkDays_cons, if_neg h1, if_neg h2]
  | cons a rest ih =>
    simp only [List.cons_append]
    rw [walkDays_cons, walkDays_cons]
    by_cases h1 : d = a + 1
    · rw [if_pos h1, if_pos h1]
      exact ih a (s + 1)
    · rw [if_neg h1, if_neg h1]
      by_cases h2 : d = a
      · rw [if_pos h2, if_pos h2]
        exact ih a s
      · rw [if_neg h2, if_neg h2]

theorem streakDays_insert_dup_left (today c : Nat) (cs : List Nat)
    (v : Nat) (bs : List Nat) (h : lastD c cs = v) :
    streakDays today ((c :: cs) ++ v :: bs) =
      streakDays today ((c :: cs) ++ bs) := by
  simp only [List.cons_append]
  rw [streakDays_cons, streakDays_cons]
  by_cases hc : c = today ∨ c + 1 = today
  · rw [if_pos hc, if_pos hc]
    exact walkDays_insert_dup_left cs c 1 v bs h
  · rw [if_neg hc, if_neg hc]

theorem streakDays_insert_dup_right (today : Nat) (as : List Nat)
    (v : Nat) (bs : List Nat) :
    streakDays today (as ++ v :: v :: bs) =
      streakDays today (as ++ v :: bs) := by
  cases as with
  | nil =>
    simp only [List.nil_append]
    rw [streakDays_cons, streakDays_cons]
    by_cases h : v = today ∨ v + 1 = today
    · rw [if_pos h, if_pos h, walkDays_cons, if_neg (by omega), if_pos rfl]
    · rw [if_neg h, if_neg h]
  | cons c cs =>
    simp only [List.cons_append]
    rw [streakDays_cons, streakDays_cons]
    by_cases h : c = today ∨ c + 1 = today
    · rw [if_pos h, if_pos h]
      exact walkDays_insert_dup_right cs c 1 v bs
    · rw [if_neg h, if_neg h]

theorem daysOf_append (off : Nat) (l₁ l₂ : List Memory) :
    daysOf off (l₁ ++ l₂) = daysOf off l₁ ++ daysOf off l₂ :=
  List.map_append _ l₁ l₂

theorem daysOf_cons (off : Nat) (m : Memory) (l : List Memory) :
    daysOf off (m :: l) = memDay off m :: daysOf off l := rfl

theorem mem_dbPut_self (store : List Memory) (e : Memory) :
    e ∈ dbPut store e := by
  unfold dbPut
  split
  · rename_i h
    rw [List.any_eq_true] at h
    obtain ⟨m, hm, hid⟩ := h
    rw [List.mem_map]
    exact ⟨m, hm, by rw [if_pos hid]⟩
  · exact List.mem_append_right _ (List.mem_singleton_self e)

theorem syncGo_sum (outcome : Nat → PushOutcome) (l : List Memory)
    (i s f : Nat) :
    (syncGo outcome i l s f).1 + (syncGo outcome i l s f).2 =
      s + f + l.length := by
  induction l generalizing i s f with
  | nil => rfl
  | cons m rest ih =>
    simp only [syncGo, List.length_cons]
    cases outcome i with
    | ok => rw [ih]; omega
    | fail => rw [ih]; omega
    | exn => rw [ih]; omega

theorem syncGo_spec (outcome : Nat → PushOutcome) (l : List Memory)
    (i s f : Nat) :
    syncGo outcome i l s f =
      (s + ((List.range' i l.length).filter
          fun j => outcome j == PushOutcome.ok).length,
       f + ((List.range' i l.length).filter
          fun j => !(outcome j == PushOutcome.ok)).length) := by
  induction l generalizing i s f with
  | nil => rfl
  | cons m rest ih =>
    simp only [syncGo, List.length_cons, List.range'_succ, List.filter_cons]
    cases houtcome : outcome i with
    | ok =>
      simp only [houtcome]
      rw [ih]
      simp
      omega
    | fail =>
      simp only [houtcome]
      rw [ih]
      simp
      omega
    | exn =>
      simp only [houtcome]
      rw [ih]
      simp
      omega

theorem wellEscaped_escapeQuotesList (l : List Char) :
    wellEscaped (escapeQuotesList l) = true := by
  unfold wellEscaped
  induction l with
  | nil => rfl
  | cons c rest ih =>
    by_cases hc : c = '"'
    · simp only [escapeQuotesList, if_pos hc, wellEscapedAux,
        if_neg (by decide : ¬(false = true))]
      simp [ih]
    · simp only [escapeQuotesList, if_neg hc, wellEscapedAux, hc]
      simpa [hc] using ih

/-! ## Claim theorems -/

/-- C1: for every list of entries whose ids, read as epoch milliseconds,
fall on strictly decreasing consecutive calendar days with the newest
entry on today's date, `calculateStreak` returns the length of the
list. -/
theorem calculateStreak_consecutive_days (off today : Nat) (m : Memory)
    (rest : List Memory) (h0 : memDay off m = today)
    (hrun : strictRun today (daysOf off rest) = true) :
    calculateStreak off today (m :: rest) = (m :: rest).length := by
  rw [calculateStreak_eq_streakDays, daysOf_cons, h0, streakDays_cons,
    if_pos (Or.inl rfl), walkDays_strictRun (daysOf off rest) today 1 hrun]
  simp only [daysOf, List.length_map, List.length_cons]
  omega

def c1m0 : Memory :=
  { id := "172800000", date := "", mood := "", imageUrl := "", summary := "" }

def c1m1 : Memory :=
  { id := "86400000", date := "", mood := "", imageUrl := "", summary := "" }

/-- Concrete instance of the C1 theorem: days 2 and 1 with today = 2. -/
theorem calculateStreak_consecutive_days_witness :
    memDay 0 c1m0 = 2 ∧ strictRun 2 (daysOf 0 [c1m1]) = true ∧
      calculateStreak 0 2 [c1m0, c1m1] = 2 :=
  ⟨by decide, by decide,
    calculateStreak_consecutive_days 0 2 c1m0 [c1m1] (by decide) (by decide)⟩

/-- C4: an entry list whose newest entry is on today, followed by a
consecutive-day run (same-day repeats allowed) and then a gap of two or
more calendar days, yields a streak equal to the count of distinct
consecutive days before the gap (`today + 1 - last run day`), whatever
comes after the gap. -/
theorem calculateStreak_gap_truncates (off today : Nat) (m g : Memory)
    (pre post : List Memory) (h0 : memDay off m = today)
    (hrun : dayRun today (daysOf off pre) = true)
    (hgap : memDay off g + 2 ≤ lastD today (daysOf off pre)) :
    calculateStreak off today (m :: (pre ++ g :: post)) =
      today + 1 - lastD today (daysOf off pre) := by
  have hle := lastD_le_of_dayRun today (daysOf off pre) hrun
  rw [calculateStreak_eq_streakDays, daysOf_cons, h0, streakDays_cons,
    if_pos (Or.inl rfl), daysOf_append, daysOf_cons,
    walkDays_run_gap (daysOf off pre) today 1 (memDay off g)
      (daysOf off post) hrun hgap]
  omega

def c4m : Memory :=
  { id := "259200000", date := "", mood := "", imageUrl := "", summary := "" }

def c4p1 : Memory :=
  { id := "172800500", date := "", mood := "", imageUrl := "", summary := "" }

def c4p2 : Memory :=
  { id := "172800100", date := "", mood := "", imageUrl := "", summary := "" }

def c4g : Memory :=
  { id := "0", date := "", mood := "", imageUrl := "", summary := "" }

/-- Concrete instance of the C4 theorem: the spec's example — days D,
D-1, D-1, D-3 give a streak of 2. -/
theorem calculateStreak_gap_truncates_witness :
    memDay 0 c4m = 3 ∧ dayRun 3 (daysOf 0 [c4p1, c4p2]) = true ∧
      memDay 0 c4g + 2 ≤ lastD 3 (daysOf 0 [c4p1, c4p2]) ∧
      calculateStreak 0 3 [c4m, c4p1, c4p2, c4g] = 2 :=
  ⟨by decide, by decide, by decide,
    calculateStreak_gap_truncates 0 3 c4m c4g [c4p1, c4p2] []
      (by decide) (by decide) (by decide)⟩

/-- C5: for every non-empty entry list whose newest entry's calendar day
is strictly earlier than yesterday, `calculateStreak` returns 0
regardless of the remaining entries. -/
theorem calculateStreak_stale_zero (off today : Nat) (m : Memory)
    (rest : List Memory) (h : memDay off m + 2 ≤ today) :
    calculateStreak off today (m :: rest) = 0 := by
  rw [calculateStreak_eq_streakDays, daysOf_cons, streakDays_cons,
    if_neg (by omega)]

def c5m : Memory :=
  { id := "0", date := "", mood := "", imageUrl := "", summary := "" }

/-- Concrete instance of the C5 theorem: newest entry on day 0 with
today = 5. -/
theorem calculateStreak_stale_zero_witness :
    memDay 0 c5m + 2 ≤ 5 ∧ calculateStreak 0 5 [c5m, c5m] = 0 :=
  ⟨by decide, calculateStreak_stale_zero 0 5 c5m [c5m] (by decide)⟩

/-- C6: inserting an extra entry on the same calendar day as an existing
one into a list sorted by numeric id descending (keeping it sorted)
leaves `calculateStreak` unchanged. -/
theorem calculateStreak_insert_same_day (off today : Nat)
    (l₁ l₂ : List Memory) (x y : Memory)
    (hsorted : (l₁ ++ x :: l₂).Pairwise (fun a b => toNum b.id ≤ toNum a.id))
    (hy : y ∈ l₁ ++ l₂) (hday : memDay off x = memDay off y) :
    calculateStreak off today (l₁ ++ x :: l₂) =
      calculateStreak off today (l₁ ++ l₂) := by
  obtain ⟨hp1, hp2, hcross⟩ := List.pairwise_append.mp hsorted
  rw [calculateStreak_eq_streakDays, calculateStreak_eq_streakDays,
    daysOf_append, daysOf_append, daysOf_cons]
  rcases List.mem_append.mp hy with hyl | hyr
  · rcases List.eq_nil_or_concat l₁ with rfl | ⟨L, z, hLz⟩
    · exact absurd hyl (List.not_mem_nil y)
    · rw [List.concat_eq_append] at hLz
      subst hLz
      have hzx : memDay off x ≤ memDay off z :=
        memDay_mono off (hcross z
          (List.mem_append_right L (List.mem_singleton_self z))
          x (List.mem_cons_self x l₂))
      have hzy : memDay off z ≤ memDay off y := by
        rcases List.mem_append.mp hyl with hyL | hyz
        · obtain ⟨-, -, hcross2⟩ := List.pairwise_append.mp hp1
          exact memDay_mono off (hcross2 y hyL z (List.mem_singleton_self z))
        · rw [List.mem_singleton.mp hyz]
      have hz : memDay off z = memDay off x := by omega
      have hA : daysOf off (L ++ [z]) = daysOf off L ++ [memDay off x] := by
        rw [daysOf_append, daysOf_cons, hz]
        rfl
      rw [hA]
      rcases hcs : daysOf off L ++ [memDay off x] with _ | ⟨c, cs⟩
      · exact absurd hcs (by simp)
      · have hlast : lastD c cs = memDay off x := by
          have h := lastD_append_singleton (daysOf off L) c (memDay off x)
          rw [hcs] at h
          exact h
        exact streakDays_insert_dup_left today c cs (memDay off x)
          (daysOf off l₂) hlast
  · cases l₂ with
    | nil => exact absurd hyr (List.not_mem_nil y)
    | cons h₂ t₂ =>
      obtain ⟨hxall, hp2t⟩ := List.pairwise_cons.mp hp2
      have h1 : memDay off h₂ ≤ memDay off x :=
        memDay_mono off (hxall h₂ (List.mem_cons_self h₂ t₂))
      have h2 : memDay off x ≤ memDay off h₂ := by
        rcases List.mem_cons.mp hyr with rfl | hyt
        · omega
        · obtain ⟨hh2all, -⟩ := List.pairwise_cons.mp hp2t
          have := memDay_mono off (hh2all y hyt)
          omega
      have hB : daysOf off (h₂ :: t₂) = memDay off x :: daysOf off t₂ := by
        rw [daysOf_cons, Nat.le_antisymm h1 h2]
      rw [hB]
      exact streakDays_insert_dup_right today (daysOf off l₁)
        (memDay off x) (daysOf off t₂)

def c6a : Memory :=
  { id := "259200000", date := "", mood := "", imageUrl := "", summary := "" }

def c6x : Memory :=
  { id := "172800700", date := "", mood := "", imageUrl := "", summary := "" }

def c6y : Memory :=
  { id := "172800100", date := "", mood := "", imageUrl := "", summary := "" }

/-- Concrete instance of the C6 theorem: inserting a second day-2 entry
between the day-3 and day-2 entries leaves the streak at 2. -/
theorem calculateStreak_insert_same_day_witness :
    ([c6a] ++ c6x :: [c6y]).Pairwise
        (fun a b => toNum b.id ≤ toNum a.id) ∧
      c6y ∈ [c6a] ++ [c6y] ∧ memDay 0 c6x = memDay 0 c6y ∧
      calculateStreak 0 3 ([c6a] ++ c6x :: [c6y]) =
        calculateStreak 0 3 ([c6a] ++ [c6y]) :=
  ⟨by decide, by decide, by decide,
    calculateStreak_insert_same_day 0 3 [c6a] [c6y] c6x c6y
      (by decide) (by decide) (by decide)⟩

/-- C2: whenever the remote store returns a non-empty result, `getMemories`
returns exactly those remote entries translated to the canonical `Memory`
shape (`image_url` mapped to `imageUrl`), and any entry present only in
the local store is absent from the result — a full replace, not a
merge. -/
theorem getMemories_full_replace (configured : Bool) (q : QueryResult)
    (store : List Memory) (data : List CloudMemory)
    (hq : getMemoriesFromCloud configured q = data) (hne : data ≠ []) :
    getMemories configured q store = data.map mapCloudMemory ∧
      ∀ m ∈ store, (∀ cm ∈ data, cm.id ≠ m.id) →
        m ∉ getMemories configured q store := by
  have hmain : getMemories configured q store = data.map mapCloudMemory := by
    show (if (getMemoriesFromCloud configured q).length > 0 then
        (getMemoriesFromCloud configured q).map mapCloudMemory
      else store.mergeSort idDescBool) = data.map mapCloudMemory
    rw [hq, if_pos (by simpa using List.length_pos.mpr hne)]
  refine ⟨hmain, ?_⟩
  intro m _ hnone hmem
  rw [hmain] at hmem
  obtain ⟨cm, hcm, hcmeq⟩ := List.mem_map.mp hmem
  exact hnone cm hcm (congrArg Memory.id hcmeq)

def c2cloud : CloudMemory :=
  { id := "1", date := "d", mood := "m", image_url := "u", summary := "s" }

def c2local : Memory :=
  { id := "2", date := "", mood := "", imageUrl := "", summary := "" }

/-- Concrete instance of the C2 theorem: the remote row replaces the
local-only entry. -/
theorem getMemories_full_replace_witness :
    getMemoriesFromCloud true (QueryResult.ok [c2cloud]) = [c2cloud] ∧
      ([c2cloud] : List CloudMemory) ≠ [] ∧
      (getMemories true (QueryResult.ok [c2cloud]) [c2local] =
          [c2cloud].map mapCloudMemory ∧
        ∀ m ∈ [c2local], (∀ cm ∈ [c2cloud], cm.id ≠ m.id) →
          m ∉ getMemories true (QueryResult.ok [c2cloud]) [c2local]) :=
  ⟨rfl, by decide,
    getMemories_full_replace true (QueryResult.ok [c2cloud]) [c2local]
      [c2cloud] rfl (by decide)⟩

/-- C3: with the remote store unreachable or unconfigured, `saveMemory e`
followed by `getMemories` yields a list that contains `e`, is a
permutation of the whole local store after the save, and is sorted by the
numeric value of `id` descending. -/
theorem saveMemory_then_getMemories (configured : Bool) (q : QueryResult)
    (store : List Memory) (e : Memory)
    (hoff : configured = false ∨ q = QueryResult.err) :
    e ∈ getMemories configured q (saveMemory store e) ∧
      (getMemories configured q (saveMemory store e)).Perm
        (saveMemory store e) ∧
      (getMemories configured q (saveMemory store e)).Pairwise
        (fun a b => toNum b.id ≤ toNum a.id) := by
  have hcloud : getMemoriesFromCloud configured q = [] := by
    rcases hoff with rfl | rfl
    · rfl
    · unfold getMemoriesFromCloud
      cases configured <;> rfl
  have hget : getMemories configured q (saveMemory store e) =
      (saveMemory store e).mergeSort idDescBool := by
    show (if (getMemoriesFromCloud configured q).length > 0 then
        (getMemoriesFromCloud configured q).map mapCloudMemory
      else (saveMemory store e).mergeSort idDescBool) =
      (saveMemory store e).mergeSort idDescBool
    rw [hcloud]
    rfl
  have htrans : ∀ a b c : Memory, idDescBool a b → idDescBool b c →
      idDescBool a c := by
    intro a b c hab hbc
    simp only [idDescBool, decide_eq_true_eq] at hab hbc ⊢
    omega
  have htotal : ∀ a b : Memory, idDescBool a b || idDescBool b a := by
    intro a b
    simp only [idDescBool, Bool.or_eq_true, decide_eq_true_eq]
    omega
  refine ⟨?_, ?_, ?_⟩
  · rw [hget, List.mem_mergeSort]
    exact mem_dbPut_self store e
  · rw [hget]
    exact List.mergeSort_perm (saveMemory store e) idDescBool
  · rw [hget]
    have hs := @List.sorted_mergeSort Memory idDescBool htrans htotal
      (saveMemory store e)
    exact hs.imp (by
      intro a b h
      simpa [idDescBool] using h)

def c3e : Memory :=
  { id := "10", date := "", mood := "", imageUrl := "", summary := "" }

def c3s : Memory :=
  { id := "9", date := "", mood := "", imageUrl := "", summary := "" }

/-- Concrete instance of the C3 theorem, with ids "10" and "9" (numeric
descending order puts "10" first where lexicographic order would not). -/
theorem saveMemory_then_getMemories_witness :
    (true = false ∨ QueryResult.err = QueryResult.err) ∧
      (c3e ∈ getMemories true QueryResult.err (saveMemory [c3s] c3e) ∧
        (getMemories true QueryResult.err (saveMemory [c3s] c3e)).Perm
          (saveMemory [c3s] c3e) ∧
        (getMemories true QueryResult.err (saveMemory [c3s] c3e)).Pairwise
          (fun a b => toNum b.id ≤ toNum a.id)) :=
  ⟨Or.inr rfl,
    saveMemory_then_getMemories true QueryResult.err [c3s] c3e (Or.inr rfl)⟩

/-- C7: `syncLocalToCloud` never raises: for every local store contents
and every pattern of per-entry remote outcomes (resolved true, resolved
false, or rejected), it returns the pair of the count of succeeded pushes
and the count of failed ones; rejections are counted, not propagated. -/
theorem syncLocalToCloud_counts (outcome : Nat → PushOutcome)
    (store : List Memory) :
    syncLocalToCloud outcome store =
      (((List.range store.length).filter
          fun i => outcome i == PushOutcome.ok).length,
       ((List.range store.length).filter
          fun i => !(outcome i == PushOutcome.ok)).length) := by
  unfold syncLocalToCloud
  rw [List.range_eq_range']
  simpa using syncGo_spec outcome store 0 0 0

/-- C10: the counts returned by `syncLocalToCloud` always satisfy
`synced + failed = number of local entries`. -/
theorem syncLocalToCloud_partition (outcome : Nat → PushOutcome)
    (store : List Memory) :
    (syncLocalToCloud outcome store).1 + (syncLocalToCloud outcome store).2 =
      store.length := by
  unfold syncLocalToCloud
  simpa using syncGo_sum outcome store 0 0 0

/-- C9: `deleteMemory` removes the entry from the local store only and
leaves the remote store unchanged; a subsequent `getMemories` that
succeeds against the non-empty remote store returns the deleted entry
again. -/
theorem deleteMemory_local_frame (db : AppDB) (i : String)
    (cm : CloudMemory) (hcm : cm ∈ db.remoteStore) (hid : cm.id = i) :
    (deleteMemory db i).remoteStore = db.remoteStore ∧
      (∀ m ∈ (deleteMemory db i).localStore, m.id ≠ i) ∧
      mapCloudMemory cm ∈ getMemories true (QueryResult.ok db.remoteStore)
        (deleteMemory db i).localStore ∧
      (mapCloudMemory cm).id = i := by
  refine ⟨rfl, ?_, ?_, hid⟩
  · intro m hm
    have h := (List.mem_filter.mp hm).2
    simpa using h
  · show mapCloudMemory cm ∈
      (if (getMemoriesFromCloud true (QueryResult.ok db.remoteStore)).length
          > 0 then
        (getMemoriesFromCloud true (QueryResult.ok db.remoteStore)).map
          mapCloudMemory
      else (deleteMemory db i).localStore.mergeSort idDescBool)
    rw [show getMemoriesFromCloud true (QueryResult.ok db.remoteStore) =
        db.remoteStore from rfl,
      if_pos (List.length_pos.mpr (List.ne_nil_of_mem hcm))]
    exact List.mem_map_of_mem mapCloudMemory hcm

def c9cm : CloudMemory :=
  { id := "7", date := "", mood := "", image_url := "", summary := "" }

def c9db : AppDB :=
  { localStore :=
      [{ id := "7", date := "", mood := "", imageUrl := "", summary := "" }],
    remoteStore := [c9cm] }

/-- Concrete instance of the C9 theorem: entry "7" deleted locally but
still served by the remote store. -/
theorem deleteMemory_local_frame_witness :
    c9cm ∈ c9db.remoteStore ∧ c9cm.id = "7" ∧
      ((deleteMemory c9db "7").remoteStore = c9db.remoteStore ∧
        (∀ m ∈ (deleteMemory c9db "7").localStore, m.id ≠ "7") ∧
        mapCloudMemory c9cm ∈
          getMemories true (QueryResult.ok c9db.remoteStore)
            (deleteMemory c9db "7").localStore ∧
        (mapCloudMemory c9cm).id = "7") :=
  ⟨by decide, rfl, deleteMemory_local_frame c9db "7" c9cm (by decide) rfl⟩

/-- Memory whose `date` field contains a double quote: the exported date
field is not escaped by the code. -/
def quoteDateMemory : Memory :=
  { id := "0", date := "a\"b", mood := "", imageUrl := "", summary := "" }

/-- C8 counterexample: the date field of the CSV row is NOT
quote-escaped — at a date containing a `"`, the produced field differs
from the quote-doubled field the claim requires, and the produced CSV
differs from the fully-escaped CSV. -/
theorem exportMemoriesToCSV_date_not_escaped :
    csvDateField quoteDateMemory ≠
        "\"" ++ escapeQuotes quoteDateMemory.date ++ "\"" ∧
      exportMemoriesToCSV [quoteDateMemory] ≠
        some (csvHeader ++ "\n" ++
          ("\"" ++ escapeQuotes quoteDateMemory.date ++ "\"" ++ "," ++
            csvMoodField quoteDateMemory ++ "," ++
            csvSummaryField quoteDateMemory ++ "," ++
            csvImageField quoteDateMemory)) := by
  decide

/-- C8 (amended): every CSV row is the comma-join of exactly the four
fields Date/Mood/Summary/Image URL, each wrapped in double quotes; the
mood and summary fields have internal double quotes doubled, while the
date field is emitted verbatim and the image field is the first 100
characters of the image URL followed by `...` (a truncated preview), both
without quote-doubling. -/
theorem exportMemoriesToCSV_row_shape (m : Memory) :
    csvRow m = csvDateField m ++ "," ++ csvMoodField m ++ "," ++
        csvSummaryField m ++ "," ++ csvImageField m ∧
      csvDateField m = "\"" ++ m.date ++ "\"" ∧
      csvMoodField m = "\"" ++ escapeQuotes m.mood ++ "\"" ∧
      csvSummaryField m = "\"" ++ escapeQuotes m.summary ++ "\"" ∧
      csvImageField m = "\"" ++ strTake m.imageUrl 100 ++ "..." ++ "\"" ∧
      wellEscaped (escapeQuotes m.mood).data = true ∧
      wellEscaped (escapeQuotes m.summary).data = true ∧
      (strTake m.imageUrl 100).data.length ≤ 100 := by
  refine ⟨rfl, rfl, rfl, rfl, rfl, ?_, ?_, ?_⟩
  · exact wellEscaped_escapeQuotesList m.mood.data
  · exact wellEscaped_escapeQuotesList m.summary.data
  · show (m.imageUrl.data.take 100).length ≤ 100
    rw [List.length_take]
    exact Nat.min_le_left 100 m.imageUrl.data.length

end MoodGarden
